import Mathlib

/-!
Formal model of the intent-classifier repository (React client `src/App.tsx`
and the Vercel relay handlers `api/classify.ts` / `api/classify.js`).

The embedding is shallow: the TypeScript/JavaScript functions are translated
into executable Lean definitions.  JavaScript strings are modelled as Lean
`String`/`List Char`; JSON values parsed by `JSON.parse` are modelled by the
inductive type `Json` below, with numbers as rationals (`ℚ`).  Engine-specific
exception messages (`TypeError`/`SyntaxError` texts produced by the JS runtime
rather than by the repository's own code) are modelled by fixed stand-in
strings; no theorem depends on their exact wording.
-/

/-- JSON values as produced by `JSON.parse`.  Object fields are kept in source
order; duplicate keys are resolved last-wins by `lookupLast`, matching
JavaScript object literal semantics. -/
inductive Json where
  | null : Json
  | bool (b : Bool) : Json
  | num (q : ℚ) : Json
  | str (s : String) : Json
  | arr (elems : List Json) : Json
  | obj (fields : List (String × Json)) : Json

/-- Last-wins association lookup, matching JavaScript object construction
where a later duplicate key overwrites an earlier one. -/
def lookupLast (fields : List (String × Json)) (key : String) : Option Json :=
  fields.foldl (fun acc kv => if kv.1 = key then some kv.2 else acc) none

/-- JSON insignificant whitespace (RFC 8259: space, tab, LF, CR). -/
def isJsonWs (c : Char) : Bool :=
  c = ' ' || c = '\t' || c = '\n' || c = '\r'

/-- Drop leading JSON whitespace. -/
def skipWs (cs : List Char) : List Char :=
  cs.dropWhile isJsonWs

/-- Hex digit value, if any. -/
def hexVal (c : Char) : Option Nat :=
  if '0' ≤ c ∧ c ≤ '9' then some (c.toNat - 48)
  else if 'a' ≤ c ∧ c ≤ 'f' then some (c.toNat - 87)
  else if 'A' ≤ c ∧ c ≤ 'F' then some (c.toNat - 55)
  else none

/-- Parse the body of a JSON string (the opening quote already consumed),
returning the decoded characters and the remainder after the closing quote.
Handles the JSON escape sequences; rejects raw control characters. -/
def parseStrBody : List Char → Option (List Char × List Char)
  | [] => none
  | '\"' :: r => some ([], r)
  | '\\' :: '\"' :: r => (parseStrBody r).map (fun p => ('\"' :: p.1, p.2))
  | '\\' :: '\\' :: r => (parseStrBody r).map (fun p => ('\\' :: p.1, p.2))
  | '\\' :: '/' :: r => (parseStrBody r).map (fun p => ('/' :: p.1, p.2))
  | '\\' :: 'b' :: r => (parseStrBody r).map (fun p => (Char.ofNat 8 :: p.1, p.2))
  | '\\' :: 'f' :: r => (parseStrBody r).map (fun p => (Char.ofNat 12 :: p.1, p.2))
  | '\\' :: 'n' :: r => (parseStrBody r).map (fun p => ('\n' :: p.1, p.2))
  | '\\' :: 'r' :: r => (parseStrBody r).map (fun p => (Char.ofNat 13 :: p.1, p.2))
  | '\\' :: 't' :: r => (parseStrBody r).map (fun p => ('\t' :: p.1, p.2))
  | '\\' :: 'u' :: a :: b :: c :: d :: r =>
    match hexVal a, hexVal b, hexVal c, hexVal d with
    | some x, some y, some z, some w =>
      (parseStrBody r).map (fun p => (Char.ofNat (4096 * x + 256 * y + 16 * z + w) :: p.1, p.2))
    | _, _, _, _ => none
  | '\\' :: _ => none
  | c :: r => if c.toNat < 32 then none else (parseStrBody r).map (fun p => (c :: p.1, p.2))

/-- Numeric value of a digit list (most significant first). -/
def digitsToNat (ds : List Char) : Nat :=
  ds.foldl (fun n c => 10 * n + (c.toNat - 48)) 0

/-- Parse a JSON number per the RFC 8259 grammar (optional minus, integer part
without leading zeros, optional fraction, optional exponent), as a rational.
The value is assembled with `mkRat` over integer arithmetic. -/
def parseNum (cs : List Char) : Option (Json × List Char) :=
  let (neg, cs1) := match cs with
    | '-' :: r => (true, r)
    | _ => (false, cs)
  let ipart : Option (Nat × List Char) := match cs1 with
    | '0' :: r => if (r.head?.map Char.isDigit).getD false then none else some (0, r)
    | c :: r =>
      if c.isDigit then
        let (ds, r') := (c :: r).span Char.isDigit
        some (digitsToNat ds, r')
      else none
    | [] => none
  match ipart with
  | none => none
  | some (i, rest1) =>
    let fpart : Option ((Nat × Nat) × List Char) := match rest1 with
      | '.' :: r =>
        let (ds, r') := r.span Char.isDigit
        if ds = [] then none else some ((digitsToNat ds, ds.length), r')
      | _ => some ((0, 0), rest1)
    match fpart with
    | none => none
    | some ((f, flen), rest2) =>
      let epart : Option (Int × List Char) := match rest2 with
        | 'e' :: r | 'E' :: r =>
          let (esign, r1) : Bool × List Char := match r with
            | '-' :: r' => (true, r')
            | '+' :: r' => (false, r')
            | _ => (false, r)
          let (ds, r2) := r1.span Char.isDigit
          if ds = [] then none
          else some (if esign then -(digitsToNat ds : Int) else (digitsToNat ds : Int), r2)
        | _ => some (0, rest2)
      match epart with
      | none => none
      | some (e, rest3) =>
        let mant : Nat := i * 10 ^ flen + f
        let num : Nat := if 0 ≤ e then mant * 10 ^ e.toNat else mant
        let den : Nat := if 0 ≤ e then 10 ^ flen else 10 ^ flen * 10 ^ (-e).toNat
        some (Json.num (mkRat (if neg then -(num : Int) else (num : Int)) den), rest3)

mutual

/-- Fuel-indexed recursive-descent JSON value parser.  Returns the parsed value
and the unconsumed remainder. -/
def parseVal : Nat → List Char → Option (Json × List Char)
  | 0, _ => none
  | fuel + 1, cs =>
    match skipWs cs with
    | [] => none
    | 'n' :: 'u' :: 'l' :: 'l' :: r => some (Json.null, r)
    | 't' :: 'r' :: 'u' :: 'e' :: r => some (Json.bool true, r)
    | 'f' :: 'a' :: 'l' :: 's' :: 'e' :: r => some (Json.bool false, r)
    | '\"' :: r => (parseStrBody r).map (fun p => (Json.str (String.mk p.1), p.2))
    | '[' :: r =>
      match skipWs r with
      | ']' :: r' => some (Json.arr [], r')
      | r' => (parseElems fuel r').map (fun p => (Json.arr p.1, p.2))
    | '{' :: r =>
      match skipWs r with
      | '}' :: r' => some (Json.obj [], r')
      | r' => (parseMembers fuel r').map (fun p => (Json.obj p.1, p.2))
    | cs' => parseNum cs'

/-- Parse one or more comma-separated array elements up to the closing `]`. -/
def parseElems : Nat → List Char → Option (List Json × List Char)
  | 0, _ => none
  | fuel + 1, cs =>
    match parseVal fuel cs with
    | none => none
    | some (v, rest) =>
      match skipWs rest with
      | ',' :: r2 => (parseElems fuel r2).map (fun p => (v :: p.1, p.2))
      | ']' :: r2 => some ([v], r2)
      | _ => none

/-- Parse one or more comma-separated object members up to the closing brace. -/
def parseMembers : Nat → List Char → Option (List (String × Json) × List Char)
  | 0, _ => none
  | fuel + 1, cs =>
    match skipWs cs with
    | '\"' :: r =>
      match parseStrBody r with
      | none => none
      | some (key, rest) =>
        match skipWs rest with
        | ':' :: r2 =>
          match parseVal fuel r2 with
          | none => none
          | some (v, rest2) =>
            match skipWs rest2 with
            | ',' :: r3 => (parseMembers fuel r3).map (fun p => ((String.mk key, v) :: p.1, p.2))
            | '}' :: r3 => some ([(String.mk key, v)], r3)
            | _ => none
        | _ => none
    | _ => none

end

/-- Model of `JSON.parse`: parse one JSON value and require that only
whitespace remains.  `none` models a thrown `SyntaxError`. -/
def jsonParse (s : String) : Option Json :=
  match parseVal (2 * s.data.length + 8) s.data with
  | some (j, rest) => if skipWs rest = [] then some j else none
  | none => none

/-- Whitespace stripped by JavaScript `String.prototype.trim` (ASCII fragment:
space, tab, LF, vertical tab, form feed, CR). -/
def isJsWs (c : Char) : Bool :=
  c = ' ' || c = '\t' || c = '\n' || c = Char.ofNat 11 || c = Char.ofNat 12 || c = '\r'

/-- Model of `s.trim()` on character lists. -/
def jsTrimL (l : List Char) : List Char :=
  ((l.dropWhile isJsWs).reverse.dropWhile isJsWs).reverse

/-- Model of `s.trim()` on strings. -/
def jsTrim (s : String) : String :=
  String.mk (jsTrimL s.data)

/-- Suffix starting at the first occurrence of `c`, if any. -/
def dropTo (c : Char) : List Char → Option (List Char)
  | [] => none
  | x :: r => if x = c then some (x :: r) else dropTo c r

/-- Model of `response.match(/\x7b[\s\S]*\x7d/)`: the greedy regex matches the
substring extending from the first brace `br0` (the first `\x7b`) through the
last closing brace of the whole string, provided such a pair exists in order. -/
def extractSpanL (l : List Char) : Option (List Char) :=
  (dropTo '{' l).bind fun l1 =>
    match l1 with
    | [] => none
    | _ :: rest => (dropTo '}' rest.reverse).map (fun r2 => '{' :: r2.reverse)

/-- String-level wrapper for `extractSpanL`. -/
def extractJsonSpan (s : String) : Option String :=
  (extractSpanL s.data).map String.mk

/-- JavaScript falsiness of a JSON value (`undefined` is handled separately as
`Option.none` where it can occur).  `NaN` does not arise from `JSON.parse`. -/
def jsFalsy : Json → Bool
  | Json.null => true
  | Json.bool b => !b
  | Json.num q => q = 0
  | Json.str s => s = ""
  | Json.arr _ => false
  | Json.obj _ => false

/-- Model of `v || d` for a possibly-absent JavaScript value `v`: the default
`d` is chosen exactly when `v` is absent (undefined) or falsy. -/
def jsOr (v : Option Json) (d : Json) : Json :=
  match v with
  | none => d
  | some x => if jsFalsy x then d else x

/-- Property access `v.key` on a possibly-absent JavaScript value.  Accessing a
property of `undefined` or `null` throws a `TypeError` (the `Except.error`
message models the engine's text); on non-objects it yields `undefined`. -/
def jsProp (v : Option Json) (key : String) : Except String (Option Json) :=
  match v with
  | none => Except.error ("Cannot read properties of undefined (reading '" ++ key ++ "')")
  | some Json.null => Except.error ("Cannot read properties of null (reading '" ++ key ++ "')")
  | some (Json.obj fields) => Except.ok (lookupLast fields key)
  | some _ => Except.ok none

/-- Index access `v[0]`.  Arrays yield their head element (or `undefined`),
strings yield their first character as a one-character string, objects look up
the property named "0", other primitives yield `undefined`; `null`/`undefined`
throw. -/
def jsIdx0 (v : Option Json) : Except String (Option Json) :=
  match v with
  | none => Except.error "Cannot read properties of undefined (reading '0')"
  | some Json.null => Except.error "Cannot read properties of null (reading '0')"
  | some (Json.arr xs) => Except.ok xs.head?
  | some (Json.str s) => Except.ok (s.data.head?.map (fun c => Json.str (String.mk [c])))
  | some (Json.obj fields) => Except.ok (lookupLast fields "0")
  | some _ => Except.ok none

/-- Model of `data.content[0].text` (App.tsx line 96) followed by the later
string uses of `response`.  When the final value is not a string, the
subsequent `response.trim()` / `response.match(...)` calls throw a `TypeError`
inside the same `try`; the error strings model the engine's messages. -/
def getResponseData (data : Json) : Except String String := do
  let c ← jsProp (some data) "content"
  let e ← jsIdx0 c
  let t ← jsProp e "text"
  match t with
  | some (Json.str s) => Except.ok s
  | some _ => Except.error "response.match is not a function"
  | none => Except.error "Cannot read properties of undefined (reading 'match')"

/-- The result record built by `classifyWithClaude` (App.tsx interface
`ClassificationResult`).  The TypeScript types declare `intent : string`,
`confidence : number`, `reasoning?: string`, but at runtime the fields hold
whatever JavaScript values the assignments produce, so they are modelled as
`Json` values; `utterance` is always the input string. -/
structure ClassificationResult where
  utterance : String
  intent : Json
  confidence : Json
  reasoning : Json

/-- Session configuration (App.tsx interface `AppConfig`). -/
structure AppConfig where
  apiKey : String
  context : String
  systemPrompt : String

/-- The error result constructed in the `catch` block of `classifyWithClaude`
(App.tsx lines 122-127). -/
def errRes (utterance msg : String) : ClassificationResult :=
  { utterance := utterance
    intent := Json.str "error"
    confidence := Json.num 0
    reasoning := Json.str ("Error: " ++ msg) }

/-- The error thrown when no artifact API is available and no API key is
configured (App.tsx line 70). -/
def keyMsg : String :=
  "Claude API key not configured. Please add your API key in the configuration panel."

/-- Stand-in for the engine-specific `SyntaxError` message raised by
`JSON.parse` on the extracted span (App.tsx line 107); the repository's own
code does not inspect this text. -/
def jsonSyntaxErrMsg (s : String) : String :=
  "Unexpected token in JSON: " ++ s

/-- The response-parsing policy of `classifyWithClaude` (App.tsx lines
99-111): direct `JSON.parse` of the trimmed response; on failure, `JSON.parse`
of the regex-extracted span; if no span exists, throw
`Error('Invalid response format')`. -/
def parseStage (response : String) : Except String Json :=
  match jsonParse (jsTrim response) with
  | some j => Except.ok j
  | none =>
    match extractJsonSpan response with
    | some sub =>
      match jsonParse sub with
      | some j => Except.ok j
      | none => Except.error (jsonSyntaxErrMsg sub)
    | none => Except.error "Invalid response format"

/-- The result construction of `classifyWithClaude` (App.tsx lines 113-118):
field accesses on the parsed value with `||` defaults.  A `TypeError` (parsed
value `null`) propagates as `Except.error`. -/
def buildStage (utterance : String) (j : Json) : Except String ClassificationResult := do
  let i ← jsProp (some j) "intent"
  let c ← jsProp (some j) "confidence"
  let r ← jsProp (some j) "reasoning"
  Except.ok
    { utterance := utterance
      intent := jsOr i (Json.str "unknown")
      confidence := jsOr c (Json.num 0)
      reasoning := jsOr r (Json.str "") }

/-- Environment behaviour for one `classifyWithClaude` call: either the
artifact API `window.claude.complete` is present (and resolves or rejects), or
the relay is reached via `fetch('/api/classify')` and resolves with a JSON
body, resolves non-ok, or rejects (network fault). -/
inductive ProviderEnv where
  | artifactOk (response : String)
  | artifactThrow (msg : String)
  | relayOk (data : Json)
  | relayHttpError (status : Nat) (body : String)
  | relayThrow (msg : String)

/-- Obtaining the raw model response (App.tsx lines 62-97): artifact API if
present, otherwise the relay call guarded by the API-key check. -/
def getResponse (env : ProviderEnv) (config : AppConfig) : Except String String :=
  match env with
  | ProviderEnv.artifactOk r => Except.ok r
  | ProviderEnv.artifactThrow m => Except.error m
  | ProviderEnv.relayOk data =>
    if config.apiKey = "" then Except.error keyMsg
    else getResponseData data
  | ProviderEnv.relayHttpError status body =>
    if config.apiKey = "" then Except.error keyMsg
    else Except.error ("API Error: " ++ Nat.repr status ++ " - " ++ body)
  | ProviderEnv.relayThrow m =>
    if config.apiKey = "" then Except.error keyMsg
    else Except.error m

/-- The `try`/`catch` boundary of `classifyWithClaude`: a thrown error with
message `m` becomes the error-tagged result `errRes utterance m`. -/
def runClassify (body : Except String ClassificationResult) (utterance : String) :
    ClassificationResult :=
  match body with
  | Except.ok r => r
  | Except.error m => errRes utterance m

/-- Full model of `classifyWithClaude` (App.tsx lines 55-129) given the
environment behaviour of this call. -/
def classifyWithClaude (env : ProviderEnv) (config : AppConfig) (utterance : String) :
    ClassificationResult :=
  runClassify (getResponse env config >>= fun r => parseStage r >>= buildStage utterance)
    utterance

/-- The parse-and-build tail of `classifyWithClaude` for an already obtained
response string (the whole behaviour on the artifact path). -/
def classifyResponse (utterance response : String) : ClassificationResult :=
  runClassify (parseStage response >>= buildStage utterance) utterance

/-- Boolean test that `p` is an initial segment of `l`. -/
def begWith : List Char → List Char → Bool
  | [], _ => true
  | _ :: _, [] => false
  | a :: p, b :: l => a = b && begWith p l

/-- Boolean test that `tok` occurs as a contiguous substring of `l`. -/
def hasTok (tok : List Char) : List Char → Bool
  | [] => false
  | c :: r => begWith tok (c :: r) || hasTok tok r

/-- The placeholder token `\x7bCONTEXT\x7d` matched by the regex
`/\x7bCONTEXT\x7d/g` in `classifyWithClaude` (App.tsx line 57). -/
def tokL : List Char := ['{', 'C', 'O', 'N', 'T', 'E', 'X', 'T', '}']

/-- ECMAScript `GetSubstitution` applied to the replacement string: `$$`, `$&`,
a backtick dollar (preceding text) and `$'` (following text) are interpreted;
any other `$`-sequence stays literal (the pattern has no capture groups). -/
def dollarSubst (tok before after : List Char) : List Char → List Char
  | [] => []
  | c :: r =>
    if c = '$' then
      match r with
      | [] => ['$']
      | d :: r' =>
        if d = '$' then '$' :: dollarSubst tok before after r'
        else if d = '&' then tok ++ dollarSubst tok before after r'
        else if d = '`' then before ++ dollarSubst tok before after r'
        else if d = '\'' then after ++ dollarSubst tok before after r'
        else '$' :: d :: dollarSubst tok before after r'
    else c :: dollarSubst tok before after r

/-- One left-to-right pass of `template.replace(/\x7bCONTEXT\x7d/g, rep)`:
`i` is the current position in the original string `s` (needed for the
`$`-substitution contexts), `cur` the remaining input.  Matched occurrences
are replaced and not rescanned. -/
def replaceContextAux (rep s : List Char) : Nat → List Char → List Char
  | _, [] => []
  | i, c :: rest =>
    if begWith tokL (c :: rest) then
      dollarSubst tokL (s.take i) (rest.drop 8) rep ++
        replaceContextAux rep s (i + 9) (rest.drop 8)
    else c :: replaceContextAux rep s (i + 1) rest
termination_by _ cur => cur.length
decreasing_by
  all_goals simp [List.length_drop]
  all_goals omega

/-- Model of `config.systemPrompt.replace(/\x7bCONTEXT\x7d/g, config.context)`
(App.tsx lines 56-57). -/
def replaceContext (rep s : List Char) : List Char :=
  replaceContextAux rep s 0 s

/-- The fixed suffix text appended before the quoted utterance
(App.tsx line 59). -/
def promptSuffix : List Char :=
  "\n\nUtterance to classify: \"".data

/-- The full prompt of `classifyWithClaude` (App.tsx lines 56-59) on character
lists: substituted template, then the fixed suffix, the utterance, and a
closing double quote. -/
def fullPromptL (tmpl ctx utt : List Char) : List Char :=
  replaceContext ctx tmpl ++ promptSuffix ++ utt ++ ['\"']

/-- String-level full prompt built from the configuration. -/
def buildFullPrompt (config : AppConfig) (utterance : String) : String :=
  String.mk (fullPromptL config.systemPrompt.data config.context.data utterance.data)

/-- The default system prompt template (App.tsx lines 26-39). -/
def DEFAULT_SYSTEM_PROMPT : String :=
  "You are an expert intent classifier. Analyze the following utterance in the context of \x7bCONTEXT\x7d and classify it into the most appropriate intent category.\n\nIf no existing category fits well, suggest a new intent category that best describes the user\x27s intention.\n\nContext: \x7bCONTEXT\x7d\n\nReturn your response as a valid JSON object in this exact format:\n\x7b\n  \"intent\": \"category_name\",\n  \"confidence\": 0.95,\n  \"reasoning\": \"brief explanation of classification\"\n\x7d\n\nIMPORTANT: Return ONLY the JSON object, no additional text."

/-- Chunk of the default template before the first placeholder. -/
def tmplChunk0 : List Char :=
  "You are an expert intent classifier. Analyze the following utterance in the context of ".data

/-- Chunk of the default template between the two placeholders. -/
def tmplChunk1 : List Char :=
  " and classify it into the most appropriate intent category.\n\nIf no existing category fits well, suggest a new intent category that best describes the user\x27s intention.\n\nContext: ".data

/-- Chunk of the default template after the second placeholder. -/
def tmplChunk2 : List Char :=
  "\n\nReturn your response as a valid JSON object in this exact format:\n\x7b\n  \"intent\": \"category_name\",\n  \"confidence\": 0.95,\n  \"reasoning\": \"brief explanation of classification\"\n\x7d\n\nIMPORTANT: Return ONLY the JSON object, no additional text.".data

/-- Substring containment as a proposition: `needle` occurs contiguously in
`hay`. -/
def containsSub (needle hay : List Char) : Prop :=
  ∃ pre post, hay = pre ++ needle ++ post

/-- No nonempty suffix of `l` shorter than `tok` is an initial segment of
`tok` (no token occurrence can straddle the right edge of `l`). -/
def noStraddle (tok : List Char) : List Char → Bool
  | [] => true
  | c :: r => !((c :: r).length < tok.length && begWith (c :: r) tok) && noStraddle tok r

/-- At no position inside the chunk `a` (scanned with continuation `rest`)
does an occurrence of the placeholder token start. -/
def noTokStartB : List Char → List Char → Bool
  | [], _ => true
  | c :: r, rest => !begWith tokL (c :: (r ++ rest)) && noTokStartB r rest

/-- Outcome of one loop iteration of `handleBatchClassification` (App.tsx
lines 157-171): a resolved `classifyWithClaude` call yields its result, a
rejected one is caught and converted to the error-tagged result. -/
def itemResult (utterance : String) (o : Except String ClassificationResult) :
    ClassificationResult :=
  match o with
  | Except.ok r => r
  | Except.error m => errRes utterance m

/-- Observable state mutations performed by the batch loop, in program
order. -/
inductive BEv where
  | setProgress (current total : Nat)
  | classified (index : Nat) (r : ClassificationResult)
  | delay

/-- The batch loop of `handleBatchClassification` (App.tsx lines 153-172),
parameterised by the behaviour `step` of each awaited classification call.
Returns the accumulated `batchResults` and the trace of state events: each
iteration sets progress to `(i+1, total)` before awaiting the call, records
the completed classification, and (on the non-caught path) performs the rate
limiting delay. -/
def batchRun (step : Nat → String → Except String ClassificationResult) (total : Nat) :
    Nat → List String → List ClassificationResult × List BEv
  | _, [] => ([], [])
  | i, u :: rest =>
    let r := itemResult u (step i u)
    let evs : List BEv :=
      BEv.setProgress (i + 1) total :: BEv.classified i r ::
        (match step i u with
          | Except.ok _ => [BEv.delay]
          | Except.error _ => [])
    let p := batchRun step total (i + 1) rest
    (r :: p.1, evs ++ p.2)

/-- The result list produced by `handleBatchClassification` over the uploaded
utterances. -/
def handleBatchClassification (step : Nat → String → Except String ClassificationResult)
    (utts : List String) : List ClassificationResult :=
  (batchRun step utts.length 0 utts).1

/-- Full state-event trace of `handleBatchClassification`: the initial
`setBatchProgress(\x7b0, total\x7d)` (line 149), the loop events, and the final
reset `setBatchProgress(\x7b0, 0\x7d)` (line 176). -/
def batchEvents (step : Nat → String → Except String ClassificationResult)
    (utts : List String) : List BEv :=
  BEv.setProgress 0 utts.length :: (batchRun step utts.length 0 utts).2 ++
    [BEv.setProgress 0 0]

/-- The progress state observable immediately after the classification of the
item at index `i` completes: fold the trace, updating the state on each
`setProgress`, and return the current state at the first `classified i`
event. -/
def obsAt (i : Nat) : Nat × Nat → List BEv → Option (Nat × Nat)
  | _, [] => none
  | _, BEv.setProgress c t :: r => obsAt i (c, t) r
  | st, BEv.classified j _ :: r => if j = i then some st else obsAt i st r
  | st, BEv.delay :: r => obsAt i st r

/-- Split a character list at newline characters, JavaScript
`content.split('\n')` style: `n` separators yield `n+1` (possibly empty)
fields. -/
def splitNl : List Char → List (List Char)
  | [] => [[]]
  | c :: r =>
    if c = '\n' then [] :: splitNl r
    else
      match splitNl r with
      | [] => [[c]]
      | h :: t => (c :: h) :: t

/-- Shared line processing of `handleFileUpload` (App.tsx lines 190 and 198):
split on newlines, trim each line, drop lines that are empty after
trimming. -/
def ingestLines (content : List Char) : List (List Char) :=
  ((splitNl content).map jsTrimL).filter (fun l => !l.isEmpty)

/-- Lower-case a character list (`toLowerCase` on the ASCII fragment). -/
def toLowerL (l : List Char) : List Char :=
  l.map Char.toLower

/-- The header heuristic of `handleFileUpload` (App.tsx line 192): the first
line, lower-cased, contains "utterance" or "text". -/
def lineHasHdr (l : List Char) : Bool :=
  hasTok "utterance".data (toLowerL l) || hasTok "text".data (toLowerL l)

/-- Boolean test that `suf` is a final segment of `l`. -/
def endsWithL (suf l : List Char) : Bool :=
  begWith suf.reverse l.reverse

/-- Model of `handleFileUpload` (App.tsx lines 180-203): the utterance list
set by reading a file named `fileName` with text `content`.  CSV files drop a
detected header line; both modes discard lines blank after trimming. -/
def handleFileUpload (fileName content : String) : List String :=
  let lines := ingestLines content.data
  if endsWithL ".csv".data fileName.data then
    (match lines with
      | [] => []
      | h :: t => if lineHasHdr h then t else lines).map String.mk
  else
    lines.map String.mk

/-- Decimal digits of the fraction `r / d` (`0 < r < d`), by long division
with fuel; all rationals arising in the modelled program have terminating
expansions well within the fuel. -/
def fracDigits : Nat → Nat → Nat → List Char
  | 0, _, _ => []
  | _ + 1, 0, _ => []
  | f + 1, r, d => Char.ofNat (48 + r * 10 / d) :: fracDigits f (r * 10 % d) d

/-- JavaScript number-to-string conversion on the modelled rational range:
integers print without a decimal point, other values print their (finite)
decimal expansion.  Exponential notation for very large or small magnitudes
is outside the modelled fragment. -/
def renderNum (q : ℚ) : String :=
  let n := q.num.natAbs
  let d := q.den
  let sgn := if q.num < 0 then "-" else ""
  if n % d = 0 then sgn ++ Nat.repr (n / d)
  else sgn ++ Nat.repr (n / d) ++ "." ++ String.mk (fracDigits 100 (n % d) d)

mutual

/-- JavaScript string coercion `String(v)` of a JSON value, as used by the
template literals in `exportResults`. -/
def jsDisplay : Json → String
  | Json.null => "null"
  | Json.bool b => if b then "true" else "false"
  | Json.num q => renderNum q
  | Json.str s => s
  | Json.arr xs => String.intercalate "," (jsDisplayElems xs)
  | Json.obj _ => "[object Object]"

/-- Array elements under `Array.prototype.toString`: `null` renders empty. -/
def jsDisplayElems : List Json → List String
  | [] => []
  | Json.null :: r => "" :: jsDisplayElems r
  | v :: r => jsDisplay v :: jsDisplayElems r

end

/-- The fixed header row of `exportResults` (App.tsx line 207). -/
def hdrL : List Char :=
  "Utterance,Intent,Confidence,Reasoning".data

/-- One exported row (App.tsx line 208): utterance, intent and reasoning are
individually wrapped in double quotes, confidence is interpolated raw, and
`r.reasoning || ''` falls back to the empty string on falsy reasoning. -/
def exportRowL (r : ClassificationResult) : List Char :=
  '\"' :: r.utterance.data ++ "\",\"".data ++ (jsDisplay r.intent).data ++ "\",".data ++
    (jsDisplay r.confidence).data ++ ",\"".data ++
    (jsDisplay (jsOr (some r.reasoning) (Json.str ""))).data ++ ['\"']

/-- JavaScript `Array.prototype.join('\n')`. -/
def joinNl : List (List Char) → List Char
  | [] => []
  | [l] => l
  | l :: ls => l ++ '\n' :: joinNl ls

/-- Model of the document built by `exportResults` (App.tsx lines 206-209):
header row followed by one row per accumulated result, joined by newlines. -/
def exportResults (rs : List ClassificationResult) : String :=
  String.mk (joinNl (hdrL :: rs.map exportRowL))

/-- An incoming relay request: HTTP method and the two body fields, which may
be absent. -/
structure RelayRequest where
  method : String
  apiKey : Option String
  prompt : Option String

/-- Behaviour of the upstream provider call issued by a relay handler. -/
inductive Upstream where
  | ok (data : Json)
  | httpErr (status : Nat) (body : String)
  | fault (msg : String)

/-- Body of a relay response. -/
inductive RelayBody where
  | empty
  | json (j : Json)

/-- Outcome of a relay handler invocation: HTTP status, response body, and
whether the upstream `fetch` was issued at all. -/
structure RelayResult where
  status : Nat
  body : RelayBody
  calledUpstream : Bool

/-- The `\x7b error: msg \x7d` JSON bodies produced by the relay handlers. -/
def errJson (msg : String) : Json :=
  Json.obj [("error", Json.str msg)]

/-- JavaScript falsiness of a possibly-absent string (`!apiKey`,
`!prompt`). -/
def strFalsy : Option String → Bool
  | none => true
  | some s => s = ""

/-- Model of the `api/classify.ts` handler: CORS preflight, method check,
key and prompt validation (lines 29-35), then the single upstream call with
error mirroring and the local-fault catch (lines 70-75). -/
def handlerTs : RelayRequest → Upstream → RelayResult
  | ⟨method, apiKey, prompt⟩, up =>
  if method = "OPTIONS" then ⟨200, RelayBody.empty, false⟩
  else if method ≠ "POST" then ⟨405, RelayBody.json (errJson "Method not allowed"), false⟩
  else if strFalsy apiKey then ⟨400, RelayBody.json (errJson "API key is required"), false⟩
  else if strFalsy prompt then ⟨400, RelayBody.json (errJson "Prompt is required"), false⟩
  else
    match up with
    | Upstream.ok d => ⟨200, RelayBody.json d, true⟩
    | Upstream.httpErr st b =>
      ⟨st, RelayBody.json (errJson ("Claude API Error: " ++ Nat.repr st ++ " - " ++ b)), true⟩
    | Upstream.fault m => ⟨500, RelayBody.json (errJson m), true⟩

/-- Model of the caller-supplied-key `api/classify.js` handler variant: like
`handlerTs` but with no prompt validation — a missing prompt is forwarded
upstream. -/
def handlerJsClient : RelayRequest → Upstream → RelayResult
  | ⟨method, apiKey, _⟩, up =>
  if method = "OPTIONS" then ⟨200, RelayBody.empty, false⟩
  else if method ≠ "POST" then ⟨405, RelayBody.json (errJson "Method not allowed"), false⟩
  else if strFalsy apiKey then ⟨400, RelayBody.json (errJson "API key is required"), false⟩
  else
    match up with
    | Upstream.ok d => ⟨200, RelayBody.json d, true⟩
    | Upstream.httpErr st b =>
      ⟨st, RelayBody.json (errJson ("Claude API Error: " ++ Nat.repr st ++ " - " ++ b)), true⟩
    | Upstream.fault m => ⟨500, RelayBody.json (errJson m), true⟩

/-- Model of the server-held-key `api/classify.js` handler variant: the key
comes from `process.env.CLAUDE_API_KEY` (absence is a 500), the caller key is
ignored, and the prompt is validated. -/
def handlerJsServer (envKey : Option String) : RelayRequest → Upstream → RelayResult
  | ⟨method, _, prompt⟩, up =>
  if method = "OPTIONS" then ⟨200, RelayBody.empty, false⟩
  else if method ≠ "POST" then ⟨405, RelayBody.json (errJson "Method not allowed"), false⟩
  else if strFalsy envKey then
    ⟨500, RelayBody.json (errJson "Server API key not configured"), false⟩
  else if strFalsy prompt then ⟨400, RelayBody.json (errJson "Prompt is required"), false⟩
  else
    match up with
    | Upstream.ok d => ⟨200, RelayBody.json d, true⟩
    | Upstream.httpErr st b =>
      ⟨st, RelayBody.json (errJson ("Claude API Error: " ++ Nat.repr st ++ " - " ++ b)), true⟩
    | Upstream.fault m => ⟨500, RelayBody.json (errJson m), true⟩

/-- Modelled from the spec wording of claim C2 ("locates the first balanced
`\x7b...\x7d` span"): scan from the first opening brace to its matching close
by depth counting.  This is the claimed behaviour, to be compared with the
source's greedy-regex `extractSpanL`. -/
def balancedSpanAux : Nat → List Char → List Char → Option (List Char)
  | _, _, [] => none
  | d, acc, c :: r =>
    if c = '}' then
      if d = 1 then some ((c :: acc).reverse) else balancedSpanAux (d - 1) (c :: acc) r
    else if c = '{' then balancedSpanAux (d + 1) (c :: acc) r
    else balancedSpanAux d (c :: acc) r

/-- Modelled from the spec wording of claim C2: the first balanced brace
span of the string, if any. -/
def firstBalancedSpan (l : List Char) : Option (List Char) :=
  match dropTo '{' l with
  | none => none
  | some l1 => balancedSpanAux 0 [] l1

/-- Modelled from the spec wording of claim C2: the parsing policy as the
claim states it, with the fallback locating the first balanced span. -/
def parseStageBalanced (response : String) : Except String Json :=
  match jsonParse (jsTrim response) with
  | some j => Except.ok j
  | none =>
    match (firstBalancedSpan response.data).map String.mk with
    | some sub =>
      match jsonParse sub with
      | some j => Except.ok j
      | none => Except.error (jsonSyntaxErrMsg sub)
    | none => Except.error "Invalid response format"

/-- Modelled from the spec wording of claim C2: the classify tail under the
claimed balanced-span policy. -/
def classifyResponseClaimed (utterance response : String) : ClassificationResult :=
  runClassify (parseStageBalanced response >>= buildStage utterance) utterance

/-- Modelled from the spec wording of claim C8 ("defaults applied exactly
when the field is absent; present fields are carried through unchanged"). -/
def buildAbsentOnly (utterance : String) (fields : List (String × Json)) :
    ClassificationResult :=
  { utterance := utterance
    intent := (lookupLast fields "intent").getD (Json.str "unknown")
    confidence := (lookupLast fields "confidence").getD (Json.num 0)
    reasoning := (lookupLast fields "reasoning").getD (Json.str "") }

/-! ### Helper lemmas -/

theorem exceptBind_ok {α β : Type} {x : Except String α} {f : α → Except String β} {b : β}
    (h : x >>= f = Except.ok b) : ∃ a, x = Except.ok a ∧ f a = Except.ok b := by
  cases x with
  | error m => simp [Bind.bind, Except.bind] at h
  | ok a => exact ⟨a, rfl, by simpa [Bind.bind, Except.bind] using h⟩

theorem buildStage_utterance (u : String) (j : Json) (r : ClassificationResult)
    (h : buildStage u j = Except.ok r) : r.utterance = u := by
  unfold buildStage at h
  obtain ⟨i, _, h⟩ := exceptBind_ok h
  obtain ⟨c, _, h⟩ := exceptBind_ok h
  obtain ⟨rr, _, h⟩ := exceptBind_ok h
  cases h
  rfl

theorem mk_ne_empty_of_ne_nil {l : List Char} (h : l ≠ []) : String.mk l ≠ "" := by
  intro he
  apply h
  have : (String.mk l).data = ("" : String).data := by rw [he]
  simpa using this

theorem ingestLines_mem_ne_nil (c : List Char) : ∀ l ∈ ingestLines c, l ≠ [] := by
  intro l hl
  have h := (List.mem_filter.1 hl).2
  simpa [List.isEmpty_iff] using h

/-! ### Claim theorems -/

/-- C10: for every environment behaviour, configuration and input utterance,
the `ClassificationResult` returned by `classifyWithClaude` carries a
`utterance` field equal to the input utterance, on the success path and on
every error path. -/
theorem C10_utterance_preserved (env : ProviderEnv) (config : AppConfig) (u : String) :
    (classifyWithClaude env config u).utterance = u := by
  unfold classifyWithClaude runClassify
  cases hg : getResponse env config >>= fun r => parseStage r >>= buildStage u with
  | error m => rfl
  | ok r =>
    obtain ⟨resp, _, h⟩ := exceptBind_ok hg
    obtain ⟨j, _, h⟩ := exceptBind_ok h
    exact buildStage_utterance u j r h

/-- C7: ingesting the uploaded blob "utterance\nhello\nworld\n" as a CSV file
yields exactly ["hello", "world"] (the header line is dropped), and in both
upload modes no line that is blank after trimming ever appears in the
resulting utterance list. -/
theorem C7_ingestion :
    handleFileUpload "utterances.csv" "utterance\nhello\nworld\n" = ["hello", "world"] ∧
    ∀ (fileName content u : String), u ∈ handleFileUpload fileName content → u ≠ "" := by
  constructor
  · rfl
  · intro fileName content u hu
    unfold handleFileUpload at hu
    set lines := ingestLines content.data with hlines
    have hmem : ∀ l ∈ lines, l ≠ [] := ingestLines_mem_ne_nil content.data
    by_cases hcsv : endsWithL ".csv".data fileName.data = true
    · rw [if_pos hcsv] at hu
      rcases hls : lines with _ | ⟨h0, t⟩
      · rw [hls] at hu
        simp at hu
      · rw [hls] at hu
        by_cases hh : lineHasHdr h0 = true
        · simp only [hh, if_true] at hu
          obtain ⟨l, hl, rfl⟩ := List.mem_map.1 hu
          exact mk_ne_empty_of_ne_nil (hmem l (by rw [hls]; exact List.mem_cons_of_mem _ hl))
        · simp only [hh, if_false, Bool.false_eq_true] at hu
          obtain ⟨l, hl, rfl⟩ := List.mem_map.1 hu
          exact mk_ne_empty_of_ne_nil (hmem l (by rw [hls]; exact hl))
    · rw [if_neg hcsv] at hu
      obtain ⟨l, hl, rfl⟩ := List.mem_map.1 hu
      exact mk_ne_empty_of_ne_nil (hmem l hl)

theorem batchRun_fst_length (step : Nat → String → Except String ClassificationResult)
    (total : Nat) : ∀ (utts : List String) (j : Nat),
    ((batchRun step total j utts).1).length = utts.length := by
  intro utts
  induction utts with
  | nil => intro j; simp [batchRun]
  | cons u rest ih => intro j; simp [batchRun, ih (j + 1)]

theorem batchRun_fst_get (step : Nat → String → Except String ClassificationResult)
    (total : Nat) : ∀ (utts : List String) (j i : Nat),
    ((batchRun step total j utts).1)[i]? =
      (utts[i]?).map (fun u => itemResult u (step (j + i) u)) := by
  intro utts
  induction utts with
  | nil => intro j i; simp [batchRun]
  | cons u rest ih =>
    intro j i
    cases i with
    | zero => simp [batchRun]
    | succ n =>
      have h := ih (j + 1) n
      rw [show j + (n + 1) = j + 1 + n by omega]
      simpa [batchRun] using h

/-- C1: for every step behaviour and every input sequence of N utterances, the
batch loop returns exactly N results in input order: the i-th result is the
outcome of the i-th call, and a failing call is converted to the error-tagged
result for that item without aborting or skipping the remaining items. -/
theorem C1_batch_results (step : Nat → String → Except String ClassificationResult)
    (utts : List String) :
    (handleBatchClassification step utts).length = utts.length ∧
    (∀ (i : Nat) (u : String), utts[i]? = some u →
      (handleBatchClassification step utts)[i]? = some (itemResult u (step i u))) ∧
    (∀ (i : Nat) (u m : String), utts[i]? = some u → step i u = Except.error m →
      (handleBatchClassification step utts)[i]? = some (errRes u m)) := by
  refine ⟨batchRun_fst_length step utts.length utts 0, ?_, ?_⟩
  · intro i u hu
    have h := batchRun_fst_get step utts.length utts 0 i
    rw [hu] at h
    simpa using h
  · intro i u m hu hs
    have h := batchRun_fst_get step utts.length utts 0 i
    rw [hu] at h
    have h2 : (batchRun step utts.length 0 utts).1[i]? =
        some (itemResult u (step (0 + i) u)) := h
    rw [Nat.zero_add, hs] at h2
    simpa [handleBatchClassification, itemResult] using h2

/-- Witness for C1 on a two-element batch whose first call fails. -/
theorem C1_batch_results_witness :
    (handleBatchClassification
        (fun i u => if i = 0 then Except.error "boom" else Except.ok (errRes u "z"))
        ["a", "b"]).length = 2 ∧
    (handleBatchClassification
        (fun i u => if i = 0 then Except.error "boom" else Except.ok (errRes u "z"))
        ["a", "b"])[0]? = some (errRes "a" "boom") :=
  ⟨(C1_batch_results _ ["a", "b"]).1,
    (C1_batch_results _ ["a", "b"]).2.2 0 "a" "boom" rfl rfl⟩

theorem obsAt_append_of_isSome : ∀ (evs : List BEv) (st : Nat × Nat) (i : Nat)
    (p : Nat × Nat) (more : List BEv),
    obsAt i st evs = some p → obsAt i st (evs ++ more) = some p := by
  intro evs
  induction evs with
  | nil => intro st i p more h; simp [obsAt] at h
  | cons e r ih =>
    intro st i p more h
    cases e with
    | setProgress c t =>
      simp only [obsAt, List.cons_append] at h ⊢
      exact ih _ _ _ _ h
    | classified jj rr =>
      by_cases hj : jj = i
      · simp only [obsAt, hj, if_pos, List.cons_append, if_true] at h ⊢
        exact h
      · simp only [obsAt, hj, if_false, List.cons_append, if_neg] at h ⊢
        exact ih _ _ _ _ h
    | delay =>
      simp only [obsAt, List.cons_append] at h ⊢
      exact ih _ _ _ _ h

theorem batchRun_obs (step : Nat → String → Except String ClassificationResult)
    (total : Nat) : ∀ (utts : List String) (j : Nat) (st : Nat × Nat) (i : Nat),
    i < utts.length →
    obsAt (j + i) st ((batchRun step total j utts).2) = some (j + i + 1, total) := by
  intro utts
  induction utts with
  | nil => intro j st i h; simp at h
  | cons u rest ih =>
    intro j st i h
    cases i with
    | zero =>
      cases hstep : step j u with
      | ok rr => simp [batchRun, hstep, obsAt]
      | error m => simp [batchRun, hstep, obsAt]
    | succ n =>
      have hlt : n < rest.length := by simpa using h
      cases hstep : step j u with
      | ok rr =>
        simp only [batchRun, hstep, obsAt, List.cons_append, List.singleton_append,
          List.nil_append]
        rw [if_neg (by omega)]
        rw [show j + (n + 1) = j + 1 + n by omega]
        exact ih (j + 1) _ n hlt
      | error m =>
        simp only [batchRun, hstep, obsAt, List.cons_append, List.singleton_append,
          List.nil_append]
        rw [if_neg (by omega)]
        rw [show j + (n + 1) = j + 1 + n by omega]
        exact ih (j + 1) _ n hlt

/-- C6: during batch classification over a sequence of total length T, the
progress state observable at the moment the classification of the item at
index i completes (and until the loop continues to the next item) equals
(i+1, T), for every index i of the batch. -/
theorem C6_progress (step : Nat → String → Except String ClassificationResult)
    (utts : List String) (i : Nat) (h : i < utts.length) :
    obsAt i (0, 0) (batchEvents step utts) = some (i + 1, utts.length) := by
  have hb := batchRun_obs step utts.length utts 0 (0, utts.length) i h
  simp only [Nat.zero_add] at hb
  show obsAt i (0, utts.length)
    ((batchRun step utts.length 0 utts).2 ++ [BEv.setProgress 0 0]) =
      some (i + 1, utts.length)
  exact obsAt_append_of_isSome _ _ _ _ [BEv.setProgress 0 0] hb

/-- Witness for C6 on a two-element batch at index 1. -/
theorem C6_progress_witness :
    obsAt 1 (0, 0) (batchEvents (fun _ u => Except.ok (errRes u "z")) ["a", "b"]) =
      some (2, 2) :=
  C6_progress _ ["a", "b"] 1 (by decide)

theorem splitNl_no_nl : ∀ (l : List Char), '\n' ∉ l → splitNl l = [l] := by
  intro l
  induction l with
  | nil => intro; rfl
  | cons c r ih =>
    intro h
    have hc : ¬(c = '\n') := fun e => h (by rw [e]; exact List.mem_cons_self _ _)
    have hr : '\n' ∉ r := fun m => h (List.mem_cons_of_mem _ m)
    simp [splitNl, hc, ih hr]

theorem splitNl_append_nl : ∀ (a rest : List Char), '\n' ∉ a →
    splitNl (a ++ '\n' :: rest) = a :: splitNl rest := by
  intro a
  induction a with
  | nil => intro rest _; simp [splitNl]
  | cons c r ih =>
    intro rest h
    have hc : ¬(c = '\n') := fun e => h (by rw [e]; exact List.mem_cons_self _ _)
    have hr : '\n' ∉ r := fun m => h (List.mem_cons_of_mem _ m)
    simp [splitNl, hc, ih rest hr]

theorem splitNl_joinNl : ∀ (ls : List (List Char)), ls ≠ [] → (∀ l ∈ ls, '\n' ∉ l) →
    splitNl (joinNl ls) = ls := by
  intro ls
  induction ls with
  | nil => intro h _; exact absurd rfl h
  | cons l ls' ih =>
    intro _ hmem
    cases ls' with
    | nil => simpa [joinNl] using splitNl_no_nl l (hmem l (List.mem_cons_self _ _))
    | cons l2 ls'' =>
      show splitNl (l ++ '\n' :: joinNl (l2 :: ls'')) = l :: l2 :: ls''
      rw [splitNl_append_nl l _ (hmem l (List.mem_cons_self _ _))]
      rw [ih (by simp) (fun x hx => hmem x (List.mem_cons_of_mem _ hx))]

/-- C4: exporting any result list yields a document whose first line is the
fixed header `Utterance,Intent,Confidence,Reasoning`; when no serialized row
contains a newline the document splits into exactly the header followed by one
row per result in order, each row quoting the text fields individually with
the confidence rendered raw; and exporting the single result
(hi, greet, 0.87, r) yields the claimed two-line document. -/
theorem C4_export :
    (∀ rs : List ClassificationResult,
      ((splitNl (exportResults rs).data).map String.mk).head? =
        some "Utterance,Intent,Confidence,Reasoning") ∧
    (∀ rs : List ClassificationResult, (∀ r ∈ rs, '\n' ∉ exportRowL r) →
      splitNl (exportResults rs).data = hdrL :: rs.map exportRowL) ∧
    exportResults [⟨"hi", Json.str "greet", Json.num (mkRat 87 100), Json.str "r"⟩] =
      "Utterance,Intent,Confidence,Reasoning\n\"hi\",\"greet\",0.87,\"r\"" := by
  refine ⟨?_, ?_, rfl⟩
  · intro rs
    cases rs with
    | nil => rfl
    | cons r rs' =>
      show ((splitNl (hdrL ++ '\n' :: joinNl ((r :: rs').map exportRowL))).map
        String.mk).head? = some "Utterance,Intent,Confidence,Reasoning"
      rw [splitNl_append_nl hdrL _ (by decide)]
      rfl
  · intro rs hrow
    show splitNl (joinNl (hdrL :: rs.map exportRowL)) = hdrL :: rs.map exportRowL
    refine splitNl_joinNl _ (by simp) ?_
    intro l hl
    rcases List.mem_cons.1 hl with rfl | hl2
    · decide
    · obtain ⟨r, hr, rfl⟩ := List.mem_map.1 hl2
      exact hrow r hr

/-- Witness for C4 at the concrete single-result list. -/
theorem C4_export_witness :
    splitNl (exportResults
        [⟨"hi", Json.str "greet", Json.num (mkRat 87 100), Json.str "r"⟩]).data =
      hdrL :: [(⟨"hi", Json.str "greet", Json.num (mkRat 87 100),
        Json.str "r"⟩ : ClassificationResult)].map exportRowL :=
  C4_export.2.1 _ (by decide)

/-- C5 (amended): validation behaviour of the three relay handlers on POST
requests.  The TypeScript relay rejects a missing or empty key with 400 "API
key is required" and, given a usable key, a missing prompt with 400 "Prompt is
required", in both cases without issuing the upstream call.  The JS
caller-supplied-key variant performs only the key check (it does not validate
the prompt).  The JS server-key variant answers 500 when the environment key
is absent and 400 for a missing prompt, again before any upstream call. -/
theorem C5_relay_validation (k p : Option String) (up : Upstream) :
    (strFalsy k = true →
      handlerTs ⟨"POST", k, p⟩ up =
        ⟨400, RelayBody.json (errJson "API key is required"), false⟩) ∧
    (strFalsy k = false → strFalsy p = true →
      handlerTs ⟨"POST", k, p⟩ up =
        ⟨400, RelayBody.json (errJson "Prompt is required"), false⟩) ∧
    (strFalsy k = true →
      handlerJsClient ⟨"POST", k, p⟩ up =
        ⟨400, RelayBody.json (errJson "API key is required"), false⟩) ∧
    (∀ ek : Option String, strFalsy ek = true →
      handlerJsServer ek ⟨"POST", k, p⟩ up =
        ⟨500, RelayBody.json (errJson "Server API key not configured"), false⟩) ∧
    (∀ ek : Option String, strFalsy ek = false → strFalsy p = true →
      handlerJsServer ek ⟨"POST", k, p⟩ up =
        ⟨400, RelayBody.json (errJson "Prompt is required"), false⟩) := by
  refine ⟨?_, ?_, ?_, ?_, ?_⟩
  · intro h
    simp only [handlerTs]
    rw [if_neg (by decide), if_neg (by decide), if_pos h]
  · intro h1 h2
    simp only [handlerTs]
    rw [if_neg (by decide), if_neg (by decide), if_neg (by simp [h1]), if_pos h2]
  · intro h
    simp only [handlerJsClient]
    rw [if_neg (by decide), if_neg (by decide), if_pos h]
  · intro ek h
    simp only [handlerJsServer]
    rw [if_neg (by decide), if_neg (by decide), if_pos h]
  · intro ek h1 h2
    simp only [handlerJsServer]
    rw [if_neg (by decide), if_neg (by decide), if_neg (by simp [h1]), if_pos h2]

/-- Witness for C5 (amended): a POST request with no key is rejected by the
TypeScript relay without an upstream call. -/
theorem C5_relay_validation_witness :
    handlerTs ⟨"POST", none, some "hello"⟩ (Upstream.ok (Json.obj [])) =
      ⟨400, RelayBody.json (errJson "API key is required"), false⟩ :=
  (C5_relay_validation none (some "hello") (Upstream.ok (Json.obj []))).1 rfl

/-- Counterexample to C5 as stated: in the caller-supplied-key `classify.js`
handler, a POST request carrying a key but no prompt is not rejected with 400;
the upstream call is issued (here answering 200). -/
theorem C5_counterexample :
    (handlerJsClient ⟨"POST", some "k", none⟩
        (Upstream.ok (Json.obj []))).calledUpstream = true ∧
    (handlerJsClient ⟨"POST", some "k", none⟩ (Upstream.ok (Json.obj []))).status = 200 := by
  exact ⟨rfl, rfl⟩

/-- C9: `classifyWithClaude` never propagates an exception: with no usable key
the relay-path calls return the error-tagged result carrying the
configuration message; a non-success HTTP status, a transport fault and a
rejected artifact call each produce an error-tagged result carrying the
corresponding message; an unparseable response produces the error-tagged
"Invalid response format" result; in general every call either returns the
successfully built result or a result tagged intent = "error"; and the
TypeScript relay converts a local fault into an HTTP 500 error body. -/
theorem C9_no_unhandled_fault (config : AppConfig) (u : String) :
    (config.apiKey = "" → ∀ (d : Json) (st : Nat) (b m : String),
      classifyWithClaude (ProviderEnv.relayOk d) config u = errRes u keyMsg ∧
      classifyWithClaude (ProviderEnv.relayHttpError st b) config u = errRes u keyMsg ∧
      classifyWithClaude (ProviderEnv.relayThrow m) config u = errRes u keyMsg) ∧
    (config.apiKey ≠ "" → ∀ (st : Nat) (b : String),
      classifyWithClaude (ProviderEnv.relayHttpError st b) config u =
        errRes u ("API Error: " ++ Nat.repr st ++ " - " ++ b)) ∧
    (config.apiKey ≠ "" → ∀ m : String,
      classifyWithClaude (ProviderEnv.relayThrow m) config u = errRes u m) ∧
    (∀ m : String, classifyWithClaude (ProviderEnv.artifactThrow m) config u = errRes u m) ∧
    (∀ resp : String, jsonParse (jsTrim resp) = none → extractJsonSpan resp = none →
      classifyWithClaude (ProviderEnv.artifactOk resp) config u =
        errRes u "Invalid response format") ∧
    (∀ env : ProviderEnv,
      (∃ r, getResponse env config >>= (fun x => parseStage x >>= buildStage u) =
          Except.ok r ∧
        classifyWithClaude env config u = r) ∨
      (classifyWithClaude env config u).intent = Json.str "error") ∧
    (∀ (k p m : String), k ≠ "" → p ≠ "" →
      handlerTs ⟨"POST", some k, some p⟩ (Upstream.fault m) =
        ⟨500, RelayBody.json (errJson m), true⟩) := by
  refine ⟨?_, ?_, ?_, ?_, ?_, ?_, ?_⟩
  · intro h d st b m
    refine ⟨?_, ?_, ?_⟩ <;>
      simp [classifyWithClaude, getResponse, h, runClassify, Bind.bind, Except.bind]
  · intro h st b
    simp [classifyWithClaude, getResponse, h, runClassify, Bind.bind, Except.bind]
  · intro h m
    simp [classifyWithClaude, getResponse, h, runClassify, Bind.bind, Except.bind]
  · intro m
    simp [classifyWithClaude, getResponse, runClassify, Bind.bind, Except.bind]
  · intro resp h1 h2
    simp [classifyWithClaude, getResponse, parseStage, h1, h2, runClassify,
      Bind.bind, Except.bind]
  · intro env
    cases hb : getResponse env config >>= fun x => parseStage x >>= buildStage u with
    | ok r =>
      exact Or.inl ⟨r, rfl, by simp [classifyWithClaude, runClassify, hb]⟩
    | error m =>
      exact Or.inr (by simp [classifyWithClaude, runClassify, hb, errRes])
  · intro k p m hk hp
    simp only [handlerTs]
    rw [if_neg (by decide), if_neg (by decide), if_neg (by simp [strFalsy, hk]),
      if_neg (by simp [strFalsy, hp])]

/-- Witness for C9: with an empty key and no artifact API, a transport fault
surfaces as the error-tagged result carrying the configuration message. -/
theorem C9_no_unhandled_fault_witness :
    classifyWithClaude (ProviderEnv.relayThrow "network down") ⟨"", "ctx", "tmpl"⟩ "hi" =
      errRes "hi" keyMsg :=
  ((C9_no_unhandled_fault ⟨"", "ctx", "tmpl"⟩ "hi").1 rfl (Json.obj []) 0 "" "network down").2.2

theorem dropTo_append_not_mem (c : Char) : ∀ (a z : List Char), c ∉ a →
    dropTo c (a ++ z) = dropTo c z := by
  intro a
  induction a with
  | nil => intro z _; rfl
  | cons x r ih =>
    intro z h
    have hx : ¬(x = c) := fun e => h (by rw [e]; exact List.mem_cons_self _ _)
    have hr : c ∉ r := fun m => h (List.mem_cons_of_mem _ m)
    simp [dropTo, hx, ih z hr]

theorem dropTo_cons_self (c : Char) (r : List Char) : dropTo c (c :: r) = some (c :: r) := by
  simp [dropTo]

theorem extractSpanL_eq (a b c : List Char) (ha : '{' ∉ a) (hc : '}' ∉ c) :
    extractSpanL (a ++ '{' :: (b ++ '}' :: c)) = some ('{' :: (b ++ ['}'])) := by
  unfold extractSpanL
  rw [dropTo_append_not_mem '{' a _ ha, dropTo_cons_self]
  rw [Option.some_bind]
  show (dropTo '}' (b ++ '}' :: c).reverse).map (fun r2 => '{' :: r2.reverse) =
    some ('{' :: (b ++ ['}']))
  rw [show (b ++ '}' :: c).reverse = c.reverse ++ '}' :: b.reverse by simp]
  rw [dropTo_append_not_mem '}' c.reverse _ (by simpa using hc), dropTo_cons_self]
  simp

/-- C2 (amended): the parsing policy of `classifyWithClaude` first attempts a
direct JSON parse of the trimmed response; on failure it extracts the span
running from the first opening brace to the last closing brace of the response
(the greedy regex match, not the first balanced span) and parses that
substring; when no such span exists the result is the error-tagged "Invalid
response format" result (when the extracted span itself fails to parse, the
result instead carries the JSON parser's own error message).  The embedded
single-object example parses via the fallback to
intent="billing", confidence=0.9, reasoning="x". -/
theorem C2_parse_policy (u resp : String) :
    (∀ j : Json, jsonParse (jsTrim resp) = some j →
      classifyResponse u resp = runClassify (buildStage u j) u) ∧
    (∀ (s : String) (j : Json), jsonParse (jsTrim resp) = none →
      extractJsonSpan resp = some s → jsonParse s = some j →
      classifyResponse u resp = runClassify (buildStage u j) u) ∧
    (jsonParse (jsTrim resp) = none → extractJsonSpan resp = none →
      classifyResponse u resp = errRes u "Invalid response format") ∧
    (∀ (a b c : List Char), '{' ∉ a → '}' ∉ c →
      extractSpanL (a ++ '{' :: (b ++ '}' :: c)) = some ('{' :: (b ++ ['}']))) ∧
    classifyResponse "u"
        "Here you go: \x7b\"intent\":\"billing\",\"confidence\":0.9,\"reasoning\":\"x\"\x7d" =
      { utterance := "u", intent := Json.str "billing", confidence := Json.num (mkRat 9 10),
        reasoning := Json.str "x" } := by
  refine ⟨?_, ?_, ?_, extractSpanL_eq, rfl⟩
  · intro j h
    simp [classifyResponse, parseStage, h, Bind.bind, Except.bind]
  · intro s j h1 h2 h3
    simp [classifyResponse, parseStage, h1, h2, h3, Bind.bind, Except.bind]
  · intro h1 h2
    simp [classifyResponse, parseStage, h1, h2, Bind.bind, Except.bind, runClassify]

/-- Witness for C2 (amended): a response with no JSON-like span yields the
"Invalid response format" error result. -/
theorem C2_parse_policy_witness :
    jsonParse (jsTrim "no json here") = none ∧ extractJsonSpan "no json here" = none ∧
    classifyResponse "u" "no json here" = errRes "u" "Invalid response format" :=
  ⟨rfl, rfl, (C2_parse_policy "u" "no json here").2.2.1 rfl rfl⟩

/-- Counterexample to C2 as stated: on a response holding two JSON objects the
code's greedy span (first brace to last closing brace) fails to parse, giving
intent "error", whereas the claimed first-balanced-span policy would parse the
first object and give intent "x". -/
theorem C2_counterexample :
    (classifyResponse "u" "a\x7b\"intent\":\"x\"\x7d b\x7b\"y\":1\x7d").intent =
      Json.str "error" ∧
    (classifyResponseClaimed "u" "a\x7b\"intent\":\"x\"\x7d b\x7b\"y\":1\x7d").intent =
      Json.str "x" ∧
    ("error" : String) ≠ "x" :=
  ⟨rfl, rfl, by decide⟩

/-- C8 (amended): for every successfully parsed response object, each field of
the resulting record is defaulted exactly when the field is absent or holds a
falsy value (null, false, 0, empty string) — intent to "unknown", confidence
to 0, reasoning to the empty string — and a present truthy field is carried
through unchanged. -/
theorem C8_field_defaults (u : String) (fs : List (String × Json)) :
    ∃ r, buildStage u (Json.obj fs) = Except.ok r ∧ r.utterance = u ∧
      (lookupLast fs "intent" = none → r.intent = Json.str "unknown") ∧
      (∀ v, lookupLast fs "intent" = some v → jsFalsy v = true →
        r.intent = Json.str "unknown") ∧
      (∀ v, lookupLast fs "intent" = some v → jsFalsy v = false → r.intent = v) ∧
      (lookupLast fs "confidence" = none → r.confidence = Json.num 0) ∧
      (∀ v, lookupLast fs "confidence" = some v → jsFalsy v = true →
        r.confidence = Json.num 0) ∧
      (∀ v, lookupLast fs "confidence" = some v → jsFalsy v = false → r.confidence = v) ∧
      (lookupLast fs "reasoning" = none → r.reasoning = Json.str "") ∧
      (∀ v, lookupLast fs "reasoning" = some v → jsFalsy v = true →
        r.reasoning = Json.str "") ∧
      (∀ v, lookupLast fs "reasoning" = some v → jsFalsy v = false → r.reasoning = v) := by
  refine ⟨_, rfl, rfl, ?_, ?_, ?_, ?_, ?_, ?_, ?_, ?_, ?_⟩
  · intro h; show jsOr (lookupLast fs "intent") (Json.str "unknown") = _; simp [jsOr, h]
  · intro v h hf; show jsOr (lookupLast fs "intent") (Json.str "unknown") = _
    simp [jsOr, h, hf]
  · intro v h hf; show jsOr (lookupLast fs "intent") (Json.str "unknown") = _
    simp [jsOr, h, hf]
  · intro h; show jsOr (lookupLast fs "confidence") (Json.num 0) = _; simp [jsOr, h]
  · intro v h hf; show jsOr (lookupLast fs "confidence") (Json.num 0) = _
    simp [jsOr, h, hf]
  · intro v h hf; show jsOr (lookupLast fs "confidence") (Json.num 0) = _
    simp [jsOr, h, hf]
  · intro h; show jsOr (lookupLast fs "reasoning") (Json.str "") = _; simp [jsOr, h]
  · intro v h hf; show jsOr (lookupLast fs "reasoning") (Json.str "") = _
    simp [jsOr, h, hf]
  · intro v h hf; show jsOr (lookupLast fs "reasoning") (Json.str "") = _
    simp [jsOr, h, hf]

/-- Witness for C8 (amended) on an object with a truthy intent and absent
confidence and reasoning. -/
theorem C8_field_defaults_witness :
    ∃ r, buildStage "u" (Json.obj [("intent", Json.str "pay")]) = Except.ok r ∧
      r.intent = Json.str "pay" ∧ r.confidence = Json.num 0 ∧ r.reasoning = Json.str "" := by
  obtain ⟨r, hok, _, _, _, hiT, hcN, _, _, hrN, _, _⟩ :=
    C8_field_defaults "u" [("intent", Json.str "pay")]
  exact ⟨r, hok, hiT (Json.str "pay") rfl (by decide), hcN rfl, hrN rfl⟩

/-- Counterexample to C8 as stated: the response object carries a present (but
falsy) intent field "", yet the built result defaults it to "unknown", whereas
a present field carried through unchanged (the claimed absent-only default
policy) would keep "". -/
theorem C8_counterexample :
    jsonParse "\x7b\"intent\":\"\",\"confidence\":0.5,\"reasoning\":\"x\"\x7d" =
      some (Json.obj [("intent", Json.str ""), ("confidence", Json.num (mkRat 1 2)),
        ("reasoning", Json.str "x")]) ∧
    (classifyResponse "u"
        "\x7b\"intent\":\"\",\"confidence\":0.5,\"reasoning\":\"x\"\x7d").intent =
      Json.str "unknown" ∧
    (buildAbsentOnly "u" [("intent", Json.str ""), ("confidence", Json.num (mkRat 1 2)),
        ("reasoning", Json.str "x")]).intent = Json.str "" ∧
    ("unknown" : String) ≠ "" :=
  ⟨rfl, rfl, rfl, by decide⟩

/-- Witness for C7 at a concrete upload. -/
theorem C7_ingestion_witness :
    handleFileUpload "utterances.csv" "utterance\nhello\nworld\n" = ["hello", "world"] ∧
    ("hello" ∈ handleFileUpload "utterances.csv" "utterance\nhello\nworld\n" → "hello" ≠ "") :=
  ⟨C7_ingestion.1, fun h => C7_ingestion.2 "utterances.csv"
    "utterance\nhello\nworld\n" "hello" h⟩

theorem begWith_append_split : ∀ (tok x y : List Char), begWith tok (x ++ y) = true →
    begWith tok x = true ∨
      (x.length < tok.length ∧ begWith x tok = true ∧
        begWith (tok.drop x.length) y = true) := by
  intro tok x
  induction x generalizing tok with
  | nil =>
    intro y h
    cases tok with
    | nil => exact Or.inl rfl
    | cons t ts => exact Or.inr ⟨by simp, rfl, h⟩
  | cons a x' ih =>
    intro y h
    cases tok with
    | nil => exact Or.inl rfl
    | cons t ts =>
      simp only [List.cons_append, begWith, Bool.and_eq_true, decide_eq_true_eq] at h
      obtain ⟨hta, hrest⟩ := h
      rcases ih ts y hrest with h1 | ⟨hlen, hbw, hdrop⟩
      · exact Or.inl (by simp [begWith, hta, h1])
      · refine Or.inr ⟨by simpa using Nat.succ_lt_succ hlen, ?_, ?_⟩
        · simp [begWith, hta, hbw]
        · simpa using hdrop

theorem begWith_head : ∀ (d : Char) (ds z : List Char), begWith (d :: ds) z = true →
    z.head? = some d := by
  intro d ds z h
  cases z with
  | nil => simp [begWith] at h
  | cons b l =>
    simp only [begWith, Bool.and_eq_true, decide_eq_true_eq] at h
    simp [h.1]

theorem begWith_decomp : ∀ (p l : List Char), begWith p l = true →
    l = p ++ l.drop p.length := by
  intro p
  induction p with
  | nil => intro l _; simp
  | cons a p' ih =>
    intro l h
    cases l with
    | nil => simp [begWith] at h
    | cons b l' =>
      simp only [begWith, Bool.and_eq_true, decide_eq_true_eq] at h
      obtain ⟨hab, h2⟩ := h
      subst hab
      simpa using ih l' h2

theorem hasTok_append_chunk (tok : List Char) : ∀ (x y : List Char),
    hasTok tok x = false → noStraddle tok x = true →
    hasTok tok (x ++ y) = hasTok tok y := by
  intro x
  induction x with
  | nil => intro y _ _; rfl
  | cons c r ih =>
    intro y hx hs
    have hx1 : begWith tok (c :: r) = false ∧ hasTok tok r = false := by
      simpa [hasTok] using hx
    have hs1 : (tok.length ≤ r.length + 1 ∨ begWith (c :: r) tok = false) ∧
        noStraddle tok r = true := by
      simpa [noStraddle, Bool.and_eq_true, not_and] using hs
    show hasTok tok (c :: (r ++ y)) = hasTok tok y
    simp only [hasTok]
    have hb : begWith tok (c :: (r ++ y)) = false := by
      cases hcase : begWith tok (c :: (r ++ y)) with
      | false => rfl
      | true =>
        exfalso
        rcases begWith_append_split tok (c :: r) y (by simpa using hcase) with
          h1 | ⟨hl, hbw, _⟩
        · rw [hx1.1] at h1; exact absurd h1 (by simp)
        · rcases hs1.1 with hle | hbwf
          · have hl2 : r.length + 1 < tok.length := by simpa using hl
            omega
          · rw [hbwf] at hbw
            exact absurd hbw (by simp)
    rw [hb]
    simp only [Bool.false_or]
    exact ih y hx1.2 hs1.2

theorem hasTok_append_head (tok : List Char) : ∀ (rep z : List Char),
    hasTok tok rep = false → (∀ c, z.head? = some c → c ∉ tok) →
    hasTok tok (rep ++ z) = hasTok tok z := by
  intro rep
  induction rep with
  | nil => intro z _ _; rfl
  | cons c r ih =>
    intro z hx hz
    have hx1 : begWith tok (c :: r) = false ∧ hasTok tok r = false := by
      simpa [hasTok] using hx
    show hasTok tok (c :: (r ++ z)) = hasTok tok z
    simp only [hasTok]
    have hb : begWith tok (c :: (r ++ z)) = false := by
      cases hcase : begWith tok (c :: (r ++ z)) with
      | false => rfl
      | true =>
        exfalso
        rcases begWith_append_split tok (c :: r) z (by simpa using hcase) with
          h1 | ⟨hl, _, hdrop⟩
        · rw [hx1.1] at h1; exact absurd h1 (by simp)
        · rcases hdk : tok.drop (c :: r).length with _ | ⟨d, ds⟩
          · have hlen := congrArg List.length hdk
            simp only [List.length_drop, List.length_nil, List.length_cons] at hlen
            have hl2 : r.length + 1 < tok.length := by simpa using hl
            omega
          · rw [hdk] at hdrop
            have hhead := begWith_head d ds z hdrop
            have hdmem : d ∈ tok :=
              List.mem_of_mem_drop (by rw [hdk]; exact List.mem_cons_self d ds)
            exact hz d hhead hdmem
    rw [hb]
    simp only [Bool.false_or]
    exact ih z hx1.2 hz

theorem head_notMem_helper (z : List Char) (c0 : Char) (h : z.head? = some c0)
    (h0 : c0 ∉ tokL) : ∀ c, z.head? = some c → c ∉ tokL := by
  intro c hc
  rw [h] at hc
  exact (Option.some.inj hc) ▸ h0

theorem dollarSubst_nodollar (tok b a : List Char) : ∀ (rep : List Char), '$' ∉ rep →
    dollarSubst tok b a rep = rep := by
  intro rep
  induction rep with
  | nil => intro _; rfl
  | cons c r ih =>
    intro h
    have hc : ¬(c = '$') := fun e => h (by rw [e]; exact List.mem_cons_self _ _)
    have hr : '$' ∉ r := fun m => h (List.mem_cons_of_mem _ m)
    rw [dollarSubst.eq_def]
    simp [hc, ih hr]

theorem replaceAux_nil (rep s : List Char) (i : Nat) :
    replaceContextAux rep s i [] = [] := by
  simp [replaceContextAux]

theorem replaceAux_tok (rep s : List Char) (i : Nat) (rest : List Char) :
    replaceContextAux rep s i (tokL ++ rest) =
      dollarSubst tokL (s.take i) rest rep ++ replaceContextAux rep s (i + 9) rest := by
  show replaceContextAux rep s i
      ('{' :: 'C' :: 'O' :: 'N' :: 'T' :: 'E' :: 'X' :: 'T' :: '}' :: rest) = _
  simp only [replaceContextAux]
  rw [if_pos (show begWith tokL
    ('{' :: 'C' :: 'O' :: 'N' :: 'T' :: 'E' :: 'X' :: 'T' :: '}' :: rest) = true from rfl)]
  rfl

theorem replaceAux_chunk (rep s : List Char) : ∀ (a rest : List Char),
    noTokStartB a rest = true → ∀ i : Nat,
    replaceContextAux rep s i (a ++ rest) =
      a ++ replaceContextAux rep s (i + a.length) rest := by
  intro a
  induction a with
  | nil => intro rest _ i; simp
  | cons c r ih =>
    intro rest h i
    have h12 : begWith tokL (c :: (r ++ rest)) = false ∧ noTokStartB r rest = true := by
      simpa [noTokStartB] using h
    show replaceContextAux rep s i (c :: (r ++ rest)) = _
    simp only [replaceContextAux]
    rw [if_neg (by simp [h12.1])]
    rw [ih rest h12.2 (i + 1)]
    simp only [List.cons_append, List.length_cons]
    rw [show i + 1 + r.length = i + (r.length + 1) by omega]

theorem replaceAux_contains (rep s : List Char) (hd : '$' ∉ rep) :
    ∀ (n : Nat) (cur : List Char), cur.length ≤ n → ∀ i : Nat, hasTok tokL cur = true →
      ∃ p q, replaceContextAux rep s i cur = p ++ rep ++ q := by
  intro n
  induction n with
  | zero =>
    intro cur hlen i h
    have hc : cur = [] := List.length_eq_zero.mp (Nat.le_zero.mp hlen)
    rw [hc] at h
    simp [hasTok] at h
  | succ n ih =>
    intro cur hlen i h
    cases cur with
    | nil => simp [hasTok] at h
    | cons c rest =>
      by_cases hb : begWith tokL (c :: rest) = true
      · have hsplit := begWith_decomp tokL (c :: rest) hb
        refine ⟨[], replaceContextAux rep s (i + 9) ((c :: rest).drop tokL.length), ?_⟩
        calc replaceContextAux rep s i (c :: rest)
            = replaceContextAux rep s i (tokL ++ (c :: rest).drop tokL.length) := by
              rw [← hsplit]
          _ = dollarSubst tokL (s.take i) ((c :: rest).drop tokL.length) rep ++
              replaceContextAux rep s (i + 9) ((c :: rest).drop tokL.length) :=
              replaceAux_tok rep s i _
          _ = [] ++ rep ++ replaceContextAux rep s (i + 9) ((c :: rest).drop tokL.length) := by
              rw [dollarSubst_nodollar _ _ _ rep hd]
              simp
      · have hb' : begWith tokL (c :: rest) = false := by
          cases hcase : begWith tokL (c :: rest) with
          | false => rfl
          | true => exact absurd hcase hb
        have hr : hasTok tokL rest = true := by
          simpa [hasTok, hb'] using h
        obtain ⟨p, q, hpq⟩ := ih rest (by simpa using hlen) (i + 1) hr
        refine ⟨c :: p, q, ?_⟩
        simp only [replaceContextAux]
        rw [if_neg (by simp [hb'])]
        rw [hpq]
        simp

theorem replaceAux_final (rep s : List Char) (a : List Char)
    (h : noTokStartB a [] = true) (i : Nat) :
    replaceContextAux rep s i a = a := by
  have h2 := replaceAux_chunk rep s a [] h i
  rw [List.append_nil] at h2
  rw [h2, replaceAux_nil, List.append_nil]

set_option maxRecDepth 8192 in
theorem replaceContext_default (ctx : List Char) (hd : '$' ∉ ctx) :
    replaceContext ctx DEFAULT_SYSTEM_PROMPT.data =
      tmplChunk0 ++ (ctx ++ (tmplChunk1 ++ (ctx ++ tmplChunk2))) := by
  unfold replaceContext
  rw [show DEFAULT_SYSTEM_PROMPT.data =
    tmplChunk0 ++ (tokL ++ (tmplChunk1 ++ (tokL ++ tmplChunk2))) by decide]
  rw [replaceAux_chunk ctx _ tmplChunk0 _ (by decide) 0]
  rw [replaceAux_tok]
  rw [replaceAux_chunk ctx _ tmplChunk1 _ (by decide) _]
  rw [replaceAux_tok]
  rw [replaceAux_final ctx _ tmplChunk2 (by decide) _]
  rw [dollarSubst_nodollar _ _ _ ctx hd, dollarSubst_nodollar _ _ _ ctx hd]

set_option maxRecDepth 16384 in
/-- C3 (amended): for every template containing the placeholder token and
every dollar-free context, the built prompt contains the configured context
string; and for the default system prompt template, whenever neither the
context nor the utterance contains the placeholder token (and the context is
free of replacement `$`-patterns), the built prompt contains the context and
no residual occurrence of the placeholder token. -/
theorem C3_prompt_substitution :
    (∀ (tmpl ctx utt : List Char), hasTok tokL tmpl = true → '$' ∉ ctx →
      containsSub ctx (fullPromptL tmpl ctx utt)) ∧
    (∀ (ctx utt : List Char), hasTok tokL ctx = false → '$' ∉ ctx →
      hasTok tokL utt = false →
      containsSub ctx (fullPromptL DEFAULT_SYSTEM_PROMPT.data ctx utt) ∧
      hasTok tokL (fullPromptL DEFAULT_SYSTEM_PROMPT.data ctx utt) = false) := by
  have hcontains : ∀ (tmpl ctx utt : List Char), hasTok tokL tmpl = true → '$' ∉ ctx →
      containsSub ctx (fullPromptL tmpl ctx utt) := by
    intro tmpl ctx utt h hd
    obtain ⟨p, q, hpq⟩ := replaceAux_contains ctx tmpl hd tmpl.length tmpl le_rfl 0 h
    refine ⟨p, q ++ (promptSuffix ++ (utt ++ ['\"'])), ?_⟩
    show replaceContext ctx tmpl ++ promptSuffix ++ utt ++ ['\"'] = _
    rw [replaceContext, hpq]
    simp
  refine ⟨hcontains, ?_⟩
  intro ctx utt hctx hd hutt
  refine ⟨hcontains _ ctx utt (by decide) hd, ?_⟩
  have s1 : hasTok tokL (utt ++ ['\"']) = false := by
    rw [hasTok_append_head tokL utt ['\"'] hutt
      (head_notMem_helper ['\"'] '\"' rfl (by decide))]
    decide
  have s2 : hasTok tokL (promptSuffix ++ (utt ++ ['\"'])) = false := by
    rw [hasTok_append_chunk tokL promptSuffix (utt ++ ['\"']) (by decide) (by decide)]
    exact s1
  have s3 : hasTok tokL (tmplChunk2 ++ (promptSuffix ++ (utt ++ ['\"']))) = false := by
    rw [hasTok_append_chunk tokL tmplChunk2 (promptSuffix ++ (utt ++ ['\"']))
      (by decide) (by decide)]
    exact s2
  have s4 : hasTok tokL (ctx ++ (tmplChunk2 ++ (promptSuffix ++ (utt ++ ['\"'])))) =
      false := by
    rw [hasTok_append_head tokL ctx (tmplChunk2 ++ (promptSuffix ++ (utt ++ ['\"']))) hctx
      (head_notMem_helper (tmplChunk2 ++ (promptSuffix ++ (utt ++ ['\"']))) '\n' rfl
        (by decide))]
    exact s3
  have s5 : hasTok tokL
      (tmplChunk1 ++ (ctx ++ (tmplChunk2 ++ (promptSuffix ++ (utt ++ ['\"']))))) =
      false := by
    rw [hasTok_append_chunk tokL tmplChunk1
      (ctx ++ (tmplChunk2 ++ (promptSuffix ++ (utt ++ ['\"'])))) (by decide) (by decide)]
    exact s4
  have s6 : hasTok tokL (ctx ++
      (tmplChunk1 ++ (ctx ++ (tmplChunk2 ++ (promptSuffix ++ (utt ++ ['\"'])))))) =
      false := by
    rw [hasTok_append_head tokL ctx
      (tmplChunk1 ++ (ctx ++ (tmplChunk2 ++ (promptSuffix ++ (utt ++ ['\"']))))) hctx
      (head_notMem_helper
        (tmplChunk1 ++ (ctx ++ (tmplChunk2 ++ (promptSuffix ++ (utt ++ ['\"'])))))
        ' ' rfl (by decide))]
    exact s5
  have s7 : hasTok tokL (tmplChunk0 ++ (ctx ++
      (tmplChunk1 ++ (ctx ++ (tmplChunk2 ++ (promptSuffix ++ (utt ++ ['\"']))))))) =
      false := by
    rw [hasTok_append_chunk tokL tmplChunk0
      (ctx ++ (tmplChunk1 ++ (ctx ++ (tmplChunk2 ++ (promptSuffix ++ (utt ++ ['\"']))))))
      (by decide) (by decide)]
    exact s6
  show hasTok tokL
    (replaceContext ctx DEFAULT_SYSTEM_PROMPT.data ++ promptSuffix ++ utt ++ ['\"']) =
      false
  rw [replaceContext_default ctx hd]
  simpa [List.append_assoc] using s7

set_option maxRecDepth 16384 in
/-- Witness for C3 (amended) at the shipped defaults. -/
theorem C3_prompt_substitution_witness :
    containsSub "general conversation".data
      (fullPromptL DEFAULT_SYSTEM_PROMPT.data "general conversation".data "hi".data) ∧
    hasTok tokL
      (fullPromptL DEFAULT_SYSTEM_PROMPT.data "general conversation".data "hi".data) =
      false :=
  C3_prompt_substitution.2 "general conversation".data "hi".data (by decide) (by decide)
    (by decide)

set_option maxRecDepth 16384 in
/-- Counterexample to C3 as stated: with the template being exactly the
placeholder token (which therefore contains it) and an utterance that itself
contains the token, the built prompt retains a residual occurrence of the
placeholder token. -/
theorem C3_counterexample :
    hasTok tokL "\x7bCONTEXT\x7d".data = true ∧
    hasTok tokL
      (fullPromptL "\x7bCONTEXT\x7d".data "c".data "hi \x7bCONTEXT\x7d".data) = true := by
  refine ⟨by decide, ?_⟩
  have h1 : replaceContext "c".data "\x7bCONTEXT\x7d".data = "c".data := by
    unfold replaceContext
    rw [show ("\x7bCONTEXT\x7d".data : List Char) = tokL ++ [] by decide]
    rw [replaceAux_tok, replaceAux_nil, dollarSubst_nodollar _ _ _ _ (by decide)]
    simp
  show hasTok tokL (replaceContext "c".data "\x7bCONTEXT\x7d".data ++ promptSuffix ++
    "hi \x7bCONTEXT\x7d".data ++ ['\"']) = true
  rw [h1]
  decide
